import Mathlib

/-!
# Verification of the yahoo-finance-scraper extraction/normalization pipeline

Shallow embedding of `yahoo_finance_scraper.py`.  Strings are modelled as
`List Char` (ASCII fragment: the Python regex character classes `\d`, `[A-Z]`,
`[a-z]`, the `str.lower`/`str.strip` calls and the whitespace set are modelled
on their ASCII meaning), Python floats are modelled as exact rationals `ℚ`,
and a raised `ValueError` is modelled as `none` in an `Option` result.
-/

namespace YFS

/-- The character list of a string literal. -/
def pyStr (s : String) : List Char := s.data

/-- Python `str.strip` whitespace set (ASCII part). -/
def pyIsSpace (c : Char) : Bool :=
  c = ' ' || c = '\t' || c = '\n' || c = '\r' || c = '\x0b' || c = '\x0c'

/-- Python `str.strip`: drop whitespace from both ends. -/
def pyStrip (l : List Char) : List Char :=
  ((l.dropWhile pyIsSpace).reverse.dropWhile pyIsSpace).reverse

/-- Python `str.lower` on the ASCII letters (the only cased characters that
occur in the claims); every other character is left unchanged. -/
def pyToLower (c : Char) : Char :=
  match c with
  | 'A' => 'a' | 'B' => 'b' | 'C' => 'c' | 'D' => 'd' | 'E' => 'e' | 'F' => 'f'
  | 'G' => 'g' | 'H' => 'h' | 'I' => 'i' | 'J' => 'j' | 'K' => 'k' | 'L' => 'l'
  | 'M' => 'm' | 'N' => 'n' | 'O' => 'o' | 'P' => 'p' | 'Q' => 'q' | 'R' => 'r'
  | 'S' => 's' | 'T' => 't' | 'U' => 'u' | 'V' => 'v' | 'W' => 'w' | 'X' => 'x'
  | 'Y' => 'y' | 'Z' => 'z'
  | c => c

/-- `leadsWith pat l` is true when `pat` is an initial segment of `l`
(the prefix test used by `str.replace` at each position). -/
def leadsWith : List Char → List Char → Bool
  | [], _ => true
  | _ :: _, [] => false
  | p :: ps, c :: cs => p = c && leadsWith ps cs

/-- Engine of `pyReplace`, structurally recursive on a fuel bound so that it
reduces in the kernel; `fuel ≥ l.length` at every call. -/
def pyReplaceFuel : Nat → List Char → List Char → List Char → List Char
  | _, [], _, _ => []
  | 0, l, _, _ => l
  | Nat.succ fuel, c :: cs, pat, rep =>
    if pat ≠ [] ∧ leadsWith pat (c :: cs) then
      rep ++ pyReplaceFuel fuel ((c :: cs).drop pat.length) pat rep
    else
      c :: pyReplaceFuel fuel cs pat rep

/-- Python `str.replace`: replace every non-overlapping occurrence of `pat`
(scanning left to right) by `rep`.  All call sites use a non-empty `pat`. -/
def pyReplace (l pat rep : List Char) : List Char :=
  pyReplaceFuel l.length l pat rep

/-- `format_string` from the source: the fallback string canonicalization. -/
def format_string (raw_val : List Char) : List Char :=
  let s1 := pyReplace raw_val (pyStr "N/A") []
  let s2 := pyReplace s1 (pyStr "%") (pyStr "pct")
  let s3 := pyReplace s2 (pyStr "-") []
  let s4 := pyReplace s3 (pyStr "(") []
  let s5 := pyReplace s4 (pyStr ")") []
  let s6 := pyReplace s5 (pyStr ",") []
  let s7 := pyReplace s6 (pyStr "S&P") (pyStr "snp")
  let s8 := (pyStrip s7).map pyToLower
  pyReplace s8 (pyStr " ") (pyStr "_")

/-- A character of the regex class `[\d,]`. -/
def numChar (c : Char) : Bool := c.isDigit || c = ','

/-- The optional sign group `(?P<sign>[-+])?` at the start of the string. -/
def splitSign (l : List Char) : Option Char × List Char :=
  match l with
  | c :: r => if c = '-' || c = '+' then (some c, r) else (none, l)
  | [] => (none, [])

/-- The optional fragment `\.?\d*` after the `[\d,]+` group. -/
def splitFrac (l : List Char) : List Char × List Char :=
  match l with
  | '.' :: r => ('.' :: r.takeWhile Char.isDigit, r.dropWhile Char.isDigit)
  | _ => ([], l)

/-- The optional suffix group `(?P<suffix>k|M|B|%)?` followed by `$`. -/
def matchSuffix (l : List Char) : Option (Option Char) :=
  match l with
  | [] => some none
  | [c] => if c = 'k' || c = 'M' || c = 'B' || c = '%' then some (some c) else none
  | _ => none

/-- `re.match` of `^(?P<sign>[-+])?(?P<number>[\d,]+\.?\d*)(?P<suffix>k|M|B|%)?$`,
returning the three captured groups.  The character classes are pairwise
disjoint, so the greedy decomposition below is the regex match. -/
def matchNumeric (l : List Char) : Option (Option Char × List Char × Option Char) :=
  let sr := splitSign l
  let intPart := sr.2.takeWhile numChar
  if intPart = [] then none
  else
    let fr := splitFrac (sr.2.dropWhile numChar)
    match matchSuffix fr.2 with
    | some suf => some (sr.1, intPart ++ fr.1, suf)
    | none => none

/-- Numeric value of one ASCII digit. -/
def digitVal (c : Char) : Nat := c.toNat - '0'.toNat

/-- Value of a list of ASCII digits read in base 10. -/
def digitsToNat (l : List Char) : Nat := l.foldl (fun a c => a * 10 + digitVal c) 0

/-- Digit analysis of a `float()` argument: the integer digits and the
fraction digits, or `none` when the string has no digit at all. -/
def pyFloatParts (l : List Char) : Option (List Char × List Char) :=
  let ip := l.takeWhile Char.isDigit
  match l.dropWhile Char.isDigit with
  | [] => if ip = [] then none else some (ip, [])
  | '.' :: fp =>
    if fp.all Char.isDigit then
      if ip = [] ∧ fp = [] then none else some (ip, fp)
    else none
  | _ => none

/-- Python `float()` restricted to its call site: the argument is the captured
`number` group with commas removed, i.e. a string of digits with at most one
dot.  `none` models the `ValueError` raised on a digit-free argument
(`float("")`, `float(".")`). -/
def pyFloat (l : List Char) : Option ℚ :=
  (pyFloatParts l).map (fun p =>
    if p.2 = [] then (digitsToNat p.1 : ℚ)
    else (digitsToNat (p.1 ++ p.2) : ℚ) / 10 ^ p.2.length)

/-- `str.replace(",", "")` applied to the captured number group. -/
def stripCommas (l : List Char) : List Char := l.filter (fun c => c ≠ ',')

/-- `format_number` from the source: apply sign and suffix scale. -/
def format_number (number : ℚ) (sign : Option Char) (suffix : Option Char) : ℚ :=
  let n1 := if sign = some '-' then number * -1 else number
  let n2 := if suffix = some 'k' then n1 * 10 ^ 3 else n1
  let n3 := if suffix = some 'M' then n2 * 10 ^ 6 else n2
  let n4 := if suffix = some 'B' then n3 * 10 ^ 9 else n3
  if suffix = some '%' then n4 / 100 else n4

/-- Month number of a `%b` abbreviation: the regex forces title case, and the
C-locale abbreviations recognized by `strptime` are the twelve below; any
other three-letter group makes `strptime` raise. -/
def monthNum (m : List Char) : Option Nat :=
  if m = pyStr "Jan" then some 1
  else if m = pyStr "Feb" then some 2
  else if m = pyStr "Mar" then some 3
  else if m = pyStr "Apr" then some 4
  else if m = pyStr "May" then some 5
  else if m = pyStr "Jun" then some 6
  else if m = pyStr "Jul" then some 7
  else if m = pyStr "Aug" then some 8
  else if m = pyStr "Sep" then some 9
  else if m = pyStr "Oct" then some 10
  else if m = pyStr "Nov" then some 11
  else if m = pyStr "Dec" then some 12
  else none

/-- Gregorian leap year, as used by `datetime`. -/
def isLeap (y : Nat) : Bool := (y % 4 = 0 && ¬ y % 100 = 0) || y % 400 = 0

/-- Days in a month, as validated by the `datetime` constructor. -/
def daysInMonth (y m : Nat) : Nat :=
  if m = 2 then (if isLeap y then 29 else 28)
  else if m = 4 || m = 6 || m = 9 || m = 11 then 30 else 31

/-- `re.match` of `^[A-Z][a-z]{2} \d{1,2}, \d{4}$`, returning the month
letters, the day digits and the year digits. -/
def matchDate (l : List Char) : Option (List Char × List Char × List Char) :=
  match l with
  | c1 :: c2 :: c3 :: ' ' :: rest =>
    if c1.isUpper && c2.isLower && c3.isLower then
      let day := rest.takeWhile Char.isDigit
      if day.length = 1 || day.length = 2 then
        match rest.dropWhile Char.isDigit with
        | ',' :: ' ' :: ys =>
          if ys.length = 4 && ys.all Char.isDigit then some ([c1, c2, c3], day, ys) else none
        | _ => none
      else none
    else none
  | _ => none

/-- `datetime.strptime(s, "%b %d, %Y")` on a string already matched by the
date regex, i.e. month = 3 letters, day = 1–2 digits, year = 4 digits.
`none` models the `ValueError` raised when the month group is not one of the
twelve abbreviations, when the day is `0` or exceeds the month length (the
`%d` pattern accepts exactly the values `1..31` in 1- or 2-digit form, and the
`datetime` constructor then requires the day to fit the month), or when the
year is `0000` (`datetime.MINYEAR` is 1). -/
def strptimeDate (mon day year : List Char) : Option (Nat × Nat × Nat) :=
  match monthNum mon with
  | none => none
  | some m =>
    let d := digitsToNat day
    let y := digitsToNat year
    if 1 ≤ d ∧ d ≤ daysInMonth y m ∧ 1 ≤ y then some (y, m, d) else none

/-- Two-digit zero-padded decimal form (`%m`, `%d` of `strftime`). -/
def pad2 (n : Nat) : List Char := if n < 10 then '0' :: Nat.toDigits 10 n else Nat.toDigits 10 n

/-- `strftime("%Y-%m-%d")`: glibc prints `%Y` without padding, `%m` and `%d`
zero-padded to two digits. -/
def isoFormat (ymd : Nat × Nat × Nat) : List Char :=
  Nat.toDigits 10 ymd.1 ++ '-' :: (pad2 ymd.2.1 ++ '-' :: pad2 ymd.2.2)

/-- A value produced by the normalization cascade, tagged with the branch of
`format_tag_val` that produced it (the spec's three kinds). -/
inductive NormalizedValue where
  | Number : ℚ → NormalizedValue
  | Date : List Char → NormalizedValue
  | Text : List Char → NormalizedValue
deriving DecidableEq

/-- The runtime Python value: `Date` and `Text` both erase to `str`,
`Number` to `float`.  Equality on `PyVal` is Python `==` at the call sites
(a float never equals a string). -/
inductive PyVal where
  | num : ℚ → PyVal
  | str : List Char → PyVal
deriving DecidableEq

/-- Erase the branch tag to the runtime value. -/
def eraseVal : NormalizedValue → PyVal
  | .Number q => .num q
  | .Date s => .str s
  | .Text s => .str s

/-- `format_tag_val` from the source: strip, then the ordered cascade
numeric pattern → date pattern → string canonicalization.  `none` models a
raised `ValueError` (from `float()` or `strptime`/`datetime`). -/
def format_tag_val (tag : List Char) : Option NormalizedValue :=
  let raw_val := pyStrip tag
  match matchNumeric raw_val with
  | some (sign, number, suffix) =>
    (pyFloat (stripCommas number)).map (fun q => .Number (format_number q sign suffix))
  | none =>
    match matchDate (pyStrip raw_val) with
    | some (mon, day, year) =>
      (strptimeDate mon day year).map (fun d => .Date (isoFormat d))
    | none => some (.Text (format_string raw_val))

/-- The record key `"ticker"`. -/
def TICKER_KEY : List Char := pyStr "ticker"

/-- The record key `"date_accessed"`. -/
def DATE_KEY : List Char := pyStr "date_accessed"

/-- A Python dict of `PyVal` keys and values, as an insertion-ordered
association list without duplicate keys. -/
def Dict := List (PyVal × PyVal)

/-- Whether a key is present in the dict. -/
def hasKey (d : List (PyVal × PyVal)) (k : PyVal) : Bool :=
  d.any (fun p => p.1 = k)

/-- `d[k] = v` on a Python dict: overwrite in place if `k` is present
(keeping its position), else append the new entry. -/
def dictUpdate (d : List (PyVal × PyVal)) (k v : PyVal) : List (PyVal × PyVal) :=
  if hasKey d k then d.map (fun p => if p.1 = k then (k, v) else p)
  else d ++ [(k, v)]

/-- `get_tags` from the source, at the level of a row's list of `td` cell
texts (footnote `sup` tags already decomposed by the caller): keep the cells
only when there are exactly two. -/
def get_tags (cells : List (List Char)) : List (List Char) :=
  if cells.length ≠ 2 then [] else cells

/-- The list comprehension `[format_tag_val(raw_tag) for raw_tag in raw_tags]`:
normalize every cell, propagating a raised `ValueError` as `none`. -/
def mapVals : List (List Char) → Option (List PyVal)
  | [] => some []
  | t :: ts =>
    match format_tag_val t with
    | some v => (mapVals ts).map (fun vs => eraseVal v :: vs)
    | none => none

/-- `scrape_row` from the source: normalize every cell of the row via the
full `format_tag_val` cascade, then keep the pair only when the row had two
cells and neither normalized value equals the empty string.  The outer
`none` models a `ValueError` escaping from `format_tag_val`. -/
def scrape_row (cells : List (List Char)) : Option (List (PyVal × PyVal)) :=
  match mapVals (get_tags cells) with
  | none => none
  | some vals =>
    match vals with
    | [v0, v1] =>
      if v0 ≠ PyVal.str [] ∧ v1 ≠ PyVal.str [] then some [(v0, v1)] else some []
    | _ => some []

/-- The `for row in rows` loop of `scrape_page`: fold each scraped row's
entries into the page dict (`dict.update`). -/
def scrape_rows (page : List (PyVal × PyVal)) (rows : List (List (List Char))) :
    Option (List (PyVal × PyVal)) :=
  match rows with
  | [] => some page
  | row :: rest =>
    match scrape_row row with
    | some pairs => scrape_rows (pairs.foldl (fun d p => dictUpdate d p.1 p.2) page) rest
    | none => none

/-- `scrape_page` from the source: start from `{"ticker": ticker}`, add
`date_accessed = today` when the fetched row list is non-empty, then fold in
every scraped row.  The rows are a parameter (the fetch and HTML parsing are
external collaborators). -/
def scrape_page (today ticker : List Char) (rows : List (List (List Char))) :
    Option (List (PyVal × PyVal)) :=
  let page0 : List (PyVal × PyVal) := [(PyVal.str TICKER_KEY, PyVal.str ticker)]
  let page1 := if rows = [] then page0 else dictUpdate page0 (PyVal.str DATE_KEY) (PyVal.str today)
  scrape_rows page1 rows

/-- The `for ticker in tickers` loop of `scrape_pages`: append one record per
ticker in order.  Returns the records actually appended and whether the loop
completed (an exception stops the loop but earlier appends are durable). -/
def scrape_pages (today : List Char) (fetch : List Char → List (List (List Char))) :
    List (List Char) → List (List (PyVal × PyVal)) × Bool
  | [] => ([], true)
  | t :: rest =>
    match scrape_page today t (fetch t) with
    | some rec =>
      let r := scrape_pages today fetch rest
      (rec :: r.1, r.2)
    | none => ([], false)

/-- `list.remove` from Python: remove the first occurrence; `none` models the
`ValueError` raised when the element is absent. -/
def listRemove {α : Type} [DecidableEq α] (l : List α) (a : α) : Option (List α) :=
  match l with
  | [] => none
  | x :: xs => if x = a then some xs else (listRemove xs a).map (fun r => x :: r)

/-- `remove_scraped_tickers` from the source: one pass over the store lines;
each line's truthy `ticker` field (present and non-empty) is removed from the
ticker list with `list.remove`.  A store line is modelled by its optional
`ticker` field.  `none` models the `ValueError` raised when a stored ticker
is absent from the remaining list. -/
def remove_scraped_tickers (tickers : List (List Char)) (store : List (Option (List Char))) :
    Option (List (List Char)) :=
  match store with
  | [] => some tickers
  | line :: rest =>
    match line with
    | some s =>
      if s = [] then remove_scraped_tickers tickers rest
      else
        match listRemove tickers s with
        | some t2 => remove_scraped_tickers t2 rest
        | none => none
    | none => remove_scraped_tickers tickers rest

/-- One run of the pipeline against an existing store: dedup the watchlist
against the store (`get_tickers`), then scrape the pending tickers in order.
The result is the list of records appended to the store by this run; a
`ValueError` in the dedup pass aborts the run before any ticker is
processed, appending nothing. -/
def run (today : List Char) (fetch : List Char → List (List (List Char)))
    (watchlist : List (List Char)) (store : List (Option (List Char))) :
    List (List (PyVal × PyVal)) :=
  match remove_scraped_tickers watchlist store with
  | some pending => (scrape_pages today fetch pending).1
  | none => []

/-- The exact failure set of the normalization cascade: the numeric pattern
matched but the captured number group has no digit (so `float` raises), or
the date pattern matched but the date is not a valid calendar date (so
`strptime`/`datetime` raises). -/
def normalizeFails (s : List Char) : Prop :=
  match matchNumeric (pyStrip s) with
  | some (_, number, _) => number.any Char.isDigit = false
  | none =>
    match matchDate (pyStrip (pyStrip s)) with
    | some (mon, day, year) => strptimeDate mon day year = none
    | none => False

/-! ## Helper lemmas -/

theorem format_tag_val_numeric {s : List Char} {sg : Option Char} {num : List Char}
    {suf : Option Char} {q : ℚ} (h1 : matchNumeric (pyStrip s) = some (sg, num, suf))
    (h2 : pyFloat (stripCommas num) = some q) :
    format_tag_val s = some (.Number (format_number q sg suf)) := by
  simp only [format_tag_val, h1, h2]
  rfl

theorem format_tag_val_date {s mon day year : List Char} {ymd : Nat × Nat × Nat}
    (h1 : matchNumeric (pyStrip s) = none)
    (h2 : matchDate (pyStrip (pyStrip s)) = some (mon, day, year))
    (h3 : strptimeDate mon day year = some ymd) :
    format_tag_val s = some (.Date (isoFormat ymd)) := by
  simp only [format_tag_val, h1, h2, h3]
  rfl

theorem listRemove_eq_none {α : Type} [DecidableEq α] {l : List α} {a : α} (h : a ∉ l) :
    listRemove l a = none := by
  induction l with
  | nil => rfl
  | cons x xs ih =>
    have h1 : ¬ x = a := fun hx => h (by rw [← hx]; exact List.mem_cons_self x xs)
    have h2 : a ∉ xs := fun hx => h (List.mem_cons_of_mem x hx)
    simp only [listRemove, if_neg h1, ih h2, Option.map_none']

theorem listRemove_sublist {α : Type} [DecidableEq α] :
    ∀ {l r : List α} {a : α}, listRemove l a = some r → List.Sublist r l := by
  intro l
  induction l with
  | nil => intro r a h; cases h
  | cons x xs ih =>
    intro r a h
    simp only [listRemove] at h
    by_cases hx : x = a
    · rw [if_pos hx] at h
      cases h
      exact List.sublist_cons_self x xs
    · rw [if_neg hx] at h
      cases hlr : listRemove xs a with
      | none => rw [hlr] at h; cases h
      | some r2 =>
        rw [hlr, Option.map_some'] at h
        cases h
        exact (ih hlr).cons₂ x

theorem listRemove_first {α : Type} [DecidableEq α] (a : α) :
    ∀ (l1 l2 : List α), a ∉ l1 → listRemove (l1 ++ a :: l2) a = some (l1 ++ l2) := by
  intro l1
  induction l1 with
  | nil => intro l2 _; simp [listRemove]
  | cons x xs ih =>
    intro l2 h
    have h1 : ¬ x = a := fun hx => h (by rw [← hx]; exact List.mem_cons_self x xs)
    have h2 : a ∉ xs := fun hx => h (List.mem_cons_of_mem x hx)
    simp only [List.cons_append, listRemove, List.append_eq, if_neg h1, ih l2 h2,
      Option.map_some']

theorem remove_scraped_append (t : List (List Char)) (pre post : List (Option (List Char))) :
    remove_scraped_tickers t (pre ++ post) =
      match remove_scraped_tickers t pre with
      | some acc => remove_scraped_tickers acc post
      | none => none := by
  induction pre generalizing t with
  | nil => rfl
  | cons line pre ih =>
    cases line with
    | none => simpa [remove_scraped_tickers] using ih t
    | some s =>
      by_cases hs : s = []
      · simpa [remove_scraped_tickers, hs] using ih t
      · simp only [List.cons_append, remove_scraped_tickers, if_neg hs]
        cases listRemove t s with
        | none => rfl
        | some t2 => exact ih t2

theorem remove_scraped_sublist :
    ∀ (store : List (Option (List Char))) (tickers out : List (List Char)),
      remove_scraped_tickers tickers store = some out → List.Sublist out tickers := by
  intro store
  induction store with
  | nil =>
    intro t out h
    cases h
    exact List.Sublist.refl t
  | cons line rest ih =>
    intro t out h
    cases line with
    | none => exact ih t out h
    | some s =>
      simp only [remove_scraped_tickers] at h
      by_cases hs : s = []
      · rw [if_pos hs] at h
        exact ih t out h
      · rw [if_neg hs] at h
        cases hlr : listRemove t s with
        | none => rw [hlr] at h; cases h
        | some t2 =>
          rw [hlr] at h
          exact (ih t2 out h).trans (listRemove_sublist hlr)

theorem scrape_page_nil (today t : List Char) :
    scrape_page today t [] = some [(PyVal.str TICKER_KEY, PyVal.str t)] := rfl

theorem hasKey_dictUpdate {d : List (PyVal × PyVal)} {k k' v : PyVal}
    (h : hasKey d k = true) : hasKey (dictUpdate d k' v) k = true := by
  unfold dictUpdate
  by_cases hd : hasKey d k' = true
  · rw [if_pos hd]
    unfold hasKey at h ⊢
    rw [List.any_eq_true] at h ⊢
    obtain ⟨p, hp, hpk⟩ := h
    rw [decide_eq_true_eq] at hpk
    refine ⟨if p.1 = k' then (k', v) else p, List.mem_map.mpr ⟨p, hp, rfl⟩, ?_⟩
    rw [decide_eq_true_eq]
    by_cases hpk' : p.1 = k'
    · rw [if_pos hpk']
      rw [← hpk', hpk]
    · rw [if_neg hpk']
      exact hpk
  · rw [if_neg hd]
    unfold hasKey at h ⊢
    rw [List.any_append, h, Bool.true_or]

theorem hasKey_dictUpdate_self (d : List (PyVal × PyVal)) (k v : PyVal) :
    hasKey (dictUpdate d k v) k = true := by
  unfold dictUpdate
  by_cases hd : hasKey d k = true
  · rw [if_pos hd]
    unfold hasKey at hd ⊢
    rw [List.any_eq_true] at hd ⊢
    obtain ⟨p, hp, hpk⟩ := hd
    rw [decide_eq_true_eq] at hpk
    refine ⟨if p.1 = k then (k, v) else p, List.mem_map.mpr ⟨p, hp, rfl⟩, ?_⟩
    rw [if_pos hpk, decide_eq_true_eq]
  · rw [if_neg hd]
    unfold hasKey
    rw [List.any_append]
    simp [List.any_cons]

theorem hasKey_foldl {pairs : List (PyVal × PyVal)} {k : PyVal} :
    ∀ {d : List (PyVal × PyVal)}, hasKey d k = true →
      hasKey (pairs.foldl (fun d p => dictUpdate d p.1 p.2) d) k = true := by
  induction pairs with
  | nil => intro d h; exact h
  | cons p ps ih => intro d h; exact ih (hasKey_dictUpdate h)

theorem scrape_rows_hasKey {k : PyVal} :
    ∀ (rows : List (List (List Char))) (page rec : List (PyVal × PyVal)),
      hasKey page k = true → scrape_rows page rows = some rec → hasKey rec k = true := by
  intro rows
  induction rows with
  | nil =>
    intro page rec h hsr
    cases hsr
    exact h
  | cons row rest ih =>
    intro page rec h hsr
    simp only [scrape_rows] at hsr
    cases hrow : scrape_row row with
    | none => rw [hrow] at hsr; cases hsr
    | some pairs =>
      rw [hrow] at hsr
      exact ih _ rec (hasKey_foldl h) hsr

/-! ## Claim theorems -/

/-- C7 (amended): when the numeric pattern does not match and the date
pattern matches a *valid* calendar date (recognized month abbreviation, day
fitting the month, year ≥ 1), the input is reformatted to a `Date` in
`%Y-%m-%d` form; `normalize("Dec 31, 2020") = Date("2020-12-31")`. -/
theorem c7_date_reformat :
    (∀ (s mon day year : List Char) (ymd : Nat × Nat × Nat),
        matchNumeric (pyStrip s) = none →
        matchDate (pyStrip (pyStrip s)) = some (mon, day, year) →
        strptimeDate mon day year = some ymd →
        format_tag_val s = some (.Date (isoFormat ymd)))
    ∧ format_tag_val (pyStr "Dec 31, 2020") = some (.Date (pyStr "2020-12-31")) :=
  ⟨fun _ _ _ _ _ h1 h2 h3 => format_tag_val_date h1 h2 h3, by decide⟩

/-- Witness for C7 at the concrete input `"Jan 2, 1999"`. -/
theorem c7_witness :
    format_tag_val (pyStr "Jan 2, 1999") = some (.Date (isoFormat (1999, 1, 2))) :=
  c7_date_reformat.1 (pyStr "Jan 2, 1999") (pyStr "Jan") (pyStr "2") (pyStr "1999")
    (1999, 1, 2) (by decide) (by decide) (by decide)

/-- C7 counterexample: `"Feb 30, 2020"` matches the date pattern with a
title-case month abbreviation, yet `strptime`/`datetime` raises (modelled as
`none`) instead of producing a `Date`. -/
theorem c7_counterexample : format_tag_val (pyStr "Feb 30, 2020") = none := by decide

/-- C4: numeric normalization negates on a leading `-` and scales by the
suffix (`k` ×1e3, `M` ×1e6, `B` ×1e9, `%` ×1e-2, no suffix unscaled); in
particular `normalize("-1,234.5k") = Number(-1234500)`,
`normalize("12.3%") = Number(0.123)`, `normalize("2B") = Number(2e9)`
(floats modelled as exact rationals). -/
theorem c4_numeric_scaling :
    (∀ (q : ℚ) (sg : Option Char),
        format_number q sg none = (if sg = some '-' then -q else q)
        ∧ format_number q sg (some 'k') = (if sg = some '-' then -q else q) * 10 ^ 3
        ∧ format_number q sg (some 'M') = (if sg = some '-' then -q else q) * 10 ^ 6
        ∧ format_number q sg (some 'B') = (if sg = some '-' then -q else q) * 10 ^ 9
        ∧ format_number q sg (some '%') = (if sg = some '-' then -q else q) / 100)
    ∧ format_tag_val (pyStr "-1,234.5k") = some (.Number (-1234500))
    ∧ format_tag_val (pyStr "12.3%") = some (.Number (123 / 1000))
    ∧ format_tag_val (pyStr "2B") = some (.Number 2000000000) := by
  refine ⟨fun q sg => ?_, ?_, ?_, ?_⟩
  · refine ⟨?_, ?_, ?_, ?_, ?_⟩ <;> simp [format_number]
  · have h1 : matchNumeric (pyStrip (pyStr "-1,234.5k")) =
        some (some '-', pyStr "1,234.5", some 'k') := by decide
    have h2 : pyFloat (stripCommas (pyStr "1,234.5")) = some (12345 / 10) := by
      have hp : pyFloatParts (stripCommas (pyStr "1,234.5")) =
          some (pyStr "1234", pyStr "5") := by decide
      have hd : digitsToNat (pyStr "1234" ++ pyStr "5") = 12345 := by decide
      have hl : (pyStr "5").length = 1 := by decide
      rw [pyFloat, hp, Option.map_some', if_neg (by decide), hd, hl]
      norm_num
    rw [format_tag_val_numeric h1 h2]
    simp [format_number]
    norm_num
  · have h1 : matchNumeric (pyStrip (pyStr "12.3%")) =
        some (none, pyStr "12.3", some '%') := by decide
    have h2 : pyFloat (stripCommas (pyStr "12.3")) = some (123 / 10) := by
      have hp : pyFloatParts (stripCommas (pyStr "12.3")) =
          some (pyStr "12", pyStr "3") := by decide
      have hd : digitsToNat (pyStr "12" ++ pyStr "3") = 123 := by decide
      have hl : (pyStr "3").length = 1 := by decide
      rw [pyFloat, hp, Option.map_some', if_neg (by decide), hd, hl]
      norm_num
    rw [format_tag_val_numeric h1 h2]
    simp [format_number]
    norm_num
  · have h1 : matchNumeric (pyStrip (pyStr "2B")) = some (none, pyStr "2", some 'B') := by
      decide
    have h2 : pyFloat (stripCommas (pyStr "2")) = some 2 := by
      have hp : pyFloatParts (stripCommas (pyStr "2")) = some (pyStr "2", []) := by decide
      have hd : digitsToNat (pyStr "2") = 2 := by decide
      rw [pyFloat, hp, Option.map_some', if_pos rfl, hd]
      norm_num
    rw [format_tag_val_numeric h1 h2]
    simp [format_number]
    norm_num

/-- C6: row extraction yields no pair for any cell count other than two, and
yields no pair for a two-cell row when either successfully normalized side is
the empty string; the listed concrete inputs all yield nothing. -/
theorem c6_row_rejection :
    (∀ cells : List (List Char), cells.length ≠ 2 → scrape_row cells = some [])
    ∧ (∀ (c0 c1 : List Char) (v0 v1 : NormalizedValue),
        format_tag_val c0 = some v0 → format_tag_val c1 = some v1 →
        (eraseVal v0 = PyVal.str [] ∨ eraseVal v1 = PyVal.str []) →
        scrape_row [c0, c1] = some [])
    ∧ scrape_row [] = some []
    ∧ scrape_row [pyStr "a"] = some []
    ∧ scrape_row [pyStr "a", pyStr "b", pyStr "c"] = some []
    ∧ scrape_row [pyStr "", pyStr "5"] = some []
    ∧ scrape_row [pyStr "Name", pyStr ""] = some [] := by
  refine ⟨fun cells h => ?_, fun c0 c1 v0 v1 h0 h1 hv => ?_,
    by decide, by decide, by decide, by decide, by decide⟩
  · simp [scrape_row, get_tags, h, mapVals]
  · rcases hv with hv | hv <;> simp [scrape_row, get_tags, mapVals, h0, h1, hv]

/-- Witness for C6 at the concrete two-cell row `["", "5"]` whose first
normalized side is the empty string. -/
theorem c6_witness : scrape_row [pyStr "", pyStr "5"] = some [] :=
  c6_row_rejection.2.1 (pyStr "") (pyStr "5") (.Text []) (.Number (digitsToNat (pyStr "5") : ℚ))
    (by decide) rfl (Or.inl rfl)

/-- C3 (amended): both cells of a two-cell row go through the same full
normalizer cascade; the field-name position is *not* forced through string
canonicalization, so a numerically parsing first cell yields a numeric field
name. -/
theorem c3_both_cells_cascade (c0 c1 : List Char) (v0 v1 : NormalizedValue)
    (h0 : format_tag_val c0 = some v0) (h1 : format_tag_val c1 = some v1)
    (e0 : eraseVal v0 ≠ PyVal.str []) (e1 : eraseVal v1 ≠ PyVal.str []) :
    scrape_row [c0, c1] = some [(eraseVal v0, eraseVal v1)] := by
  simp [scrape_row, get_tags, mapVals, h0, h1, e0, e1]

/-- C3 counterexample: for the row `["5", "abc"]` the extracted field name is
the number `5.0`, not the string canonicalization of `"5"`. -/
theorem c3_counterexample :
    scrape_row [pyStr "5", pyStr "abc"] =
      some [(PyVal.num (digitsToNat (pyStr "5") : ℚ), PyVal.str (pyStr "abc"))]
    ∧ PyVal.num (digitsToNat (pyStr "5") : ℚ) ≠ PyVal.str (format_string (pyStr "5")) := by
  constructor
  · decide
  · intro h
    cases h

/-- Witness for C3 at the concrete row `["5", "abc"]`. -/
theorem c3_witness :
    scrape_row [pyStr "5", pyStr "abc"] =
      some [(eraseVal (.Number (digitsToNat (pyStr "5") : ℚ)),
             eraseVal (.Text (pyStr "abc")))] :=
  c3_both_cells_cascade (pyStr "5") (pyStr "abc")
    (.Number (digitsToNat (pyStr "5") : ℚ)) (.Text (pyStr "abc")) rfl (by decide)
    (by decide) (by decide)

/-- C9: a successfully extracted row whose normalized field name is
`"ticker"` overwrites the record's `ticker` entry, so the appended record no
longer carries the symbol it was built for. -/
theorem c9_ticker_overwrite :
    scrape_page (pyStr "2020-01-01") (pyStr "ABC") [[pyStr "ticker", pyStr "oops"]] =
      some [(PyVal.str TICKER_KEY, PyVal.str (pyStr "oops")),
            (PyVal.str DATE_KEY, PyVal.str (pyStr "2020-01-01"))]
    ∧ PyVal.str (pyStr "oops") ≠ PyVal.str (pyStr "ABC") := by decide

/-- C2 (amended): `date_accessed` is present in a produced record exactly
when the fetch yielded a non-empty row list, even if no row was successfully
extracted; with no rows the record is just the ticker entry (empty field set,
no `date_accessed`) and it is still appended.  With non-empty rows a record
is produced only if no cell makes the normalizer raise: a poison cell such as
`","` propagates and no record is appended for that symbol. -/
theorem c2_date_accessed :
    (∀ today t : List Char, scrape_page today t [] = some [(PyVal.str TICKER_KEY, PyVal.str t)])
    ∧ (∀ (today t : List Char) (rows : List (List (List Char))) (rec : List (PyVal × PyVal)),
        rows ≠ [] → scrape_page today t rows = some rec →
        hasKey rec (PyVal.str DATE_KEY) = true)
    ∧ (∀ (today : List Char) (fetch : List Char → List (List (List Char)))
        (t : List Char) (rest : List (List Char)), fetch t = [] →
        (scrape_pages today fetch (t :: rest)).1 =
          [(PyVal.str TICKER_KEY, PyVal.str t)] :: (scrape_pages today fetch rest).1)
    ∧ (∀ today t : List Char,
        scrape_page today t [[pyStr ",", pyStr "x"]] = none)
    ∧ (∀ (today : List Char) (fetch : List Char → List (List (List Char)))
        (t : List Char) (rest : List (List Char)), fetch t = [[pyStr ",", pyStr "x"]] →
        scrape_pages today fetch (t :: rest) = ([], false)) := by
  have hpoison : ∀ today t : List Char,
      scrape_page today t [[pyStr ",", pyStr "x"]] = none := by
    intro today t
    rw [scrape_page, scrape_rows, show scrape_row [pyStr ",", pyStr "x"] = none from by decide]
  refine ⟨scrape_page_nil, fun today t rows rec hr hsp => ?_,
    fun today fetch t rest hf => ?_, hpoison, fun today fetch t rest hf => ?_⟩
  · rw [scrape_page, if_neg hr] at hsp
    exact scrape_rows_hasKey rows _ rec (hasKey_dictUpdate_self _ _ _) hsp
  · rw [scrape_pages, hf, scrape_page_nil]
  · rw [scrape_pages, hf, hpoison today t]

/-- Witness for C2: a page with one valid text row carries `date_accessed`. -/
theorem c2_witness :
    hasKey [(PyVal.str TICKER_KEY, PyVal.str (pyStr "T")),
            (PyVal.str DATE_KEY, PyVal.str (pyStr "2020-01-01")),
            (PyVal.str (pyStr "name"), PyVal.str (pyStr "val"))]
      (PyVal.str DATE_KEY) = true :=
  c2_date_accessed.2.1 (pyStr "2020-01-01") (pyStr "T") [[pyStr "Name", pyStr "val"]] _
    (by decide) (by decide)

/-- C2 counterexample: a page whose only row is malformed (three cells) has
`date_accessed` in its record even though no row was successfully
extracted. -/
theorem c2_counterexample :
    scrape_page (pyStr "2020-01-01") (pyStr "T") [[pyStr "a", pyStr "b", pyStr "c"]] =
      some [(PyVal.str TICKER_KEY, PyVal.str (pyStr "T")),
            (PyVal.str DATE_KEY, PyVal.str (pyStr "2020-01-01"))]
    ∧ scrape_row [pyStr "a", pyStr "b", pyStr "c"] = some [] := by decide

/-- C5: the dedup pass is order-preserving (its output is a sublist of the
watchlist); each non-empty stored symbol removes exactly the first matching
occurrence from the pending list; a duplicated watchlist symbol survives one
stored entry. -/
theorem c5_pending_dedup :
    (∀ (tickers out : List (List Char)) (store : List (Option (List Char))),
        remove_scraped_tickers tickers store = some out → List.Sublist out tickers)
    ∧ (∀ (a : List Char) (l1 l2 : List (List Char)) (rest : List (Option (List Char))),
        a ≠ [] → a ∉ l1 →
        remove_scraped_tickers (l1 ++ a :: l2) (some a :: rest) =
          remove_scraped_tickers (l1 ++ l2) rest)
    ∧ remove_scraped_tickers [pyStr "A", pyStr "B", pyStr "A"] [some (pyStr "A")] =
        some [pyStr "B", pyStr "A"] := by
  refine ⟨fun tickers out store h => remove_scraped_sublist store tickers out h,
    fun a l1 l2 rest ha hnl => ?_, by decide⟩
  simp only [remove_scraped_tickers, if_neg ha, listRemove_first a l1 l2 hnl]

/-- Witness for C5: the dedup output for watchlist `[A, B, A]` against a
store holding one `A` is a sublist of the watchlist. -/
theorem c5_witness :
    List.Sublist [pyStr "B", pyStr "A"] [pyStr "A", pyStr "B", pyStr "A"] :=
  c5_pending_dedup.1 [pyStr "A", pyStr "B", pyStr "A"] [pyStr "B", pyStr "A"]
    [some (pyStr "A")] (by decide)

/-- C10: if some store line's non-empty ticker is absent from the remaining
pending list, the dedup pass raises (`none`) and the run appends nothing. -/
theorem c10_store_symbol_missing (tickers : List (List Char))
    (pre : List (Option (List Char))) (s : List Char) (rest : List (Option (List Char)))
    (acc : List (List Char)) (today : List Char)
    (fetch : List Char → List (List (List Char)))
    (hpre : remove_scraped_tickers tickers pre = some acc)
    (hs : s ≠ []) (habs : s ∉ acc) :
    remove_scraped_tickers tickers (pre ++ some s :: rest) = none
    ∧ run today fetch tickers (pre ++ some s :: rest) = [] := by
  have hnone : remove_scraped_tickers tickers (pre ++ some s :: rest) = none := by
    rw [remove_scraped_append, hpre]
    simp only [remove_scraped_tickers, if_neg hs, listRemove_eq_none habs]
  exact ⟨hnone, by rw [run, hnone]⟩

/-- Witness for C10: store ticker `B` absent from watchlist `[A]`. -/
theorem c10_witness :
    remove_scraped_tickers [pyStr "A"] ([] ++ some (pyStr "B") :: []) = none
    ∧ run (pyStr "2020-01-01") (fun _ => []) [pyStr "A"] ([] ++ some (pyStr "B") :: []) = [] :=
  c10_store_symbol_missing [pyStr "A"] [] (pyStr "B") [] [pyStr "A"] (pyStr "2020-01-01")
    (fun _ => []) rfl (by decide) (by decide)

/-! ## Totality analysis of the cascade (C1) -/

theorem takeWhile_all {p : Char → Bool} : ∀ {l : List Char}, (∀ c ∈ l, p c = true) →
    l.takeWhile p = l := by
  intro l
  induction l with
  | nil => intro _; rfl
  | cons x xs ih =>
    intro h
    rw [List.takeWhile_cons, if_pos (h x (List.mem_cons_self x xs)),
      ih (fun c hc => h c (List.mem_cons_of_mem x hc))]

theorem dropWhile_all {p : Char → Bool} : ∀ {l : List Char}, (∀ c ∈ l, p c = true) →
    l.dropWhile p = [] := by
  intro l
  induction l with
  | nil => intro _; rfl
  | cons x xs ih =>
    intro h
    rw [List.dropWhile_cons, if_pos (h x (List.mem_cons_self x xs)),
      ih (fun c hc => h c (List.mem_cons_of_mem x hc))]

theorem takeWhile_append_all {p : Char → Bool} {r : List Char} :
    ∀ {d : List Char}, (∀ c ∈ d, p c = true) →
    (d ++ r).takeWhile p = d ++ r.takeWhile p := by
  intro d
  induction d with
  | nil => intro _; rfl
  | cons x xs ih =>
    intro h
    rw [List.cons_append, List.takeWhile_cons, if_pos (h x (List.mem_cons_self x xs)),
      ih (fun c hc => h c (List.mem_cons_of_mem x hc)), List.cons_append]

theorem dropWhile_append_all {p : Char → Bool} {r : List Char} :
    ∀ {d : List Char}, (∀ c ∈ d, p c = true) →
    (d ++ r).dropWhile p = r.dropWhile p := by
  intro d
  induction d with
  | nil => intro _; rfl
  | cons x xs ih =>
    intro h
    rw [List.cons_append, List.dropWhile_cons, if_pos (h x (List.mem_cons_self x xs)),
      ih (fun c hc => h c (List.mem_cons_of_mem x hc))]

theorem splitFrac_shape (R : List Char) :
    (splitFrac R).1 = [] ∨
      ∃ F, (splitFrac R).1 = '.' :: F ∧ ∀ c ∈ F, Char.isDigit c = true := by
  unfold splitFrac
  split
  · right
    exact ⟨_, rfl, fun c hc => List.mem_takeWhile_imp hc⟩
  · left
    rfl

theorem matchNumeric_num_shape {l : List Char} {sg : Option Char} {num : List Char}
    {suf : Option Char} (h : matchNumeric l = some (sg, num, suf)) :
    ∃ A B, num = A ++ B ∧ A ≠ [] ∧ (∀ c ∈ A, numChar c = true) ∧
      (B = [] ∨ ∃ F, B = '.' :: F ∧ ∀ c ∈ F, Char.isDigit c = true) := by
  simp only [matchNumeric] at h
  by_cases hA : (splitSign l).2.takeWhile numChar = []
  · rw [if_pos hA] at h
    cases h
  · rw [if_neg hA] at h
    cases hms : matchSuffix (splitFrac ((splitSign l).2.dropWhile numChar)).2 with
    | none => rw [hms] at h; simp at h
    | some suf2 =>
      rw [hms] at h
      simp only [Option.some.injEq, Prod.mk.injEq] at h
      obtain ⟨-, hnum, -⟩ := h
      exact ⟨_, _, hnum.symm, hA, fun c hc => List.mem_takeWhile_imp hc, splitFrac_shape _⟩

theorem stripCommas_append (a b : List Char) :
    stripCommas (a ++ b) = stripCommas a ++ stripCommas b := by
  simp [stripCommas]

theorem stripCommas_dot_cons (F : List Char) :
    stripCommas ('.' :: F) = '.' :: stripCommas F := by
  simp [stripCommas]

theorem stripCommas_digits {F : List Char} (h : ∀ c ∈ F, Char.isDigit c = true) :
    stripCommas F = F := by
  unfold stripCommas
  rw [List.filter_eq_self]
  intro a ha
  rw [decide_eq_true_eq]
  intro he
  have := h a ha
  rw [he] at this
  exact absurd this (by decide)

theorem any_digit_false_iff_strip_nil :
    ∀ {A : List Char}, (∀ c ∈ A, numChar c = true) →
      (A.any Char.isDigit = false ↔ stripCommas A = []) := by
  intro A
  induction A with
  | nil => intro _; simp [stripCommas]
  | cons x xs ih =>
    intro h
    have hx := h x (List.mem_cons_self x xs)
    have hxs := fun c hc => h c (List.mem_cons_of_mem x hc)
    rw [numChar, Bool.or_eq_true] at hx
    rcases hx with hxd | hxc
    · have hxne : ¬ x = ',' := by
        intro he
        rw [he] at hxd
        exact absurd hxd (by decide)
      simp [stripCommas, hxd, hxne]
    · rw [decide_eq_true_eq] at hxc
      subst hxc
      simp [stripCommas, ih hxs]

theorem any_digit_false_iff_nil {F : List Char} (h : ∀ c ∈ F, Char.isDigit c = true) :
    (F.any Char.isDigit = false ↔ F = []) := by
  cases F with
  | nil => simp
  | cons x xs =>
    have hx := h x (List.mem_cons_self x xs)
    simp [hx]

theorem pyFloatParts_digits {dA : List Char} (h : ∀ c ∈ dA, Char.isDigit c = true) :
    pyFloatParts dA = if dA = [] then none else some (dA, []) := by
  simp only [pyFloatParts, takeWhile_all h, dropWhile_all h]

theorem pyFloatParts_digits_dot {dA F : List Char} (hA : ∀ c ∈ dA, Char.isDigit c = true)
    (hF : ∀ c ∈ F, Char.isDigit c = true) :
    pyFloatParts (dA ++ '.' :: F) = if dA = [] ∧ F = [] then none else some (dA, F) := by
  have hdot : Char.isDigit '.' = false := by decide
  have hall : F.all Char.isDigit = true := List.all_eq_true.mpr hF
  simp only [pyFloatParts, takeWhile_append_all hA, dropWhile_append_all hA,
    List.takeWhile_cons, List.dropWhile_cons, hdot, Bool.false_eq_true, if_false,
    List.append_nil, hall, if_true]

theorem pyFloat_iff_of_matchNumeric {l : List Char} {sg : Option Char} {num : List Char}
    {suf : Option Char} (h : matchNumeric l = some (sg, num, suf)) :
    (pyFloat (stripCommas num) = none ↔ num.any Char.isDigit = false) := by
  obtain ⟨A, B, hnum, hAne, hA, hB⟩ := matchNumeric_num_shape h
  subst hnum
  have hstripA : ∀ c ∈ stripCommas A, Char.isDigit c = true := by
    intro c hc
    rw [stripCommas, List.mem_filter, decide_eq_true_eq] at hc
    have hcn := hA c hc.1
    rw [numChar, Bool.or_eq_true] at hcn
    rcases hcn with hd | hc'
    · exact hd
    · rw [decide_eq_true_eq] at hc'
      exact absurd hc' hc.2
  rcases hB with hBnil | ⟨F, hBF, hF⟩
  · subst hBnil
    rw [List.append_nil, pyFloat, pyFloatParts_digits hstripA]
    by_cases hnil : stripCommas A = []
    · rw [if_pos hnil]
      simp only [Option.map_none']
      exact ⟨fun _ => (any_digit_false_iff_strip_nil hA).mpr hnil, fun _ => trivial⟩
    · rw [if_neg hnil]
      simp only [Option.map_some']
      constructor
      · intro hc
        cases hc
      · intro hfalse
        exact absurd ((any_digit_false_iff_strip_nil hA).mp hfalse) hnil
  · subst hBF
    rw [stripCommas_append, stripCommas_dot_cons, stripCommas_digits hF, pyFloat,
      pyFloatParts_digits_dot hstripA hF]
    by_cases hnil : stripCommas A = [] ∧ F = []
    · rw [if_pos hnil]
      simp only [Option.map_none']
      constructor
      · intro _
        rw [List.any_append, Bool.or_eq_false_iff]
        refine ⟨(any_digit_false_iff_strip_nil hA).mpr hnil.1, ?_⟩
        simp [hnil.2]
      · intro _
        trivial
    · rw [if_neg hnil]
      simp only [Option.map_some']
      constructor
      · intro hc
        cases hc
      · intro hfalse
        rw [List.any_append, Bool.or_eq_false_iff] at hfalse
        obtain ⟨hfA, hfB⟩ := hfalse
        rw [List.any_cons, Bool.or_eq_false_iff] at hfB
        exact absurd ⟨(any_digit_false_iff_strip_nil hA).mp hfA,
          (any_digit_false_iff_nil hF).mp hfB.2⟩ hnil

/-- C1 (amended): the normalization cascade is total — it returns exactly one
of the three kinds — for every input except the exact failure set
`normalizeFails`: numeric-pattern matches whose number group has no digit
(`float` raises `ValueError`), and date-pattern matches that are not valid
calendar dates (`strptime`/`datetime` raises `ValueError`). -/
theorem c1_normalize_total_iff (s : List Char) :
    format_tag_val s = none ↔ normalizeFails s := by
  rcases hn : matchNumeric (pyStrip s) with _ | ⟨sg, num, suf⟩
  · rcases hd : matchDate (pyStrip (pyStrip s)) with _ | ⟨mon, day, year⟩
    · simp [format_tag_val, normalizeFails, hn, hd]
    · simp only [format_tag_val, normalizeFails, hn, hd, Option.map_eq_none']
  · simp only [format_tag_val, normalizeFails, hn, Option.map_eq_none']
    exact pyFloat_iff_of_matchNumeric hn

/-- C1 counterexample: `normalize(",")` raises `ValueError` — the numeric
pattern matches with a digit-free number group and `float("")` fails — so the
cascade is not total as claimed. -/
theorem c1_counterexample : format_tag_val (pyStr ",") = none := by decide

/-! ## Idempotence of string canonicalization (C8) -/

theorem pyReplaceFuel_head_notMem {pat rep : List Char} {hd : Char} {tl : List Char}
    (hpat : pat = hd :: tl) :
    ∀ (fuel : Nat) (l : List Char), l.length ≤ fuel → hd ∉ l →
      pyReplaceFuel fuel l pat rep = l := by
  intro fuel
  induction fuel with
  | zero =>
    intro l hl _
    cases l with
    | nil => rfl
    | cons c cs => simp at hl
  | succ fuel ih =>
    intro l hl hmem
    cases l with
    | nil => rfl
    | cons c cs =>
      have hcs : cs.length ≤ fuel := by
        simp only [List.length_cons] at hl
        omega
      have hne : ¬ leadsWith pat (c :: cs) = true := by
        rw [hpat]
        simp only [leadsWith, Bool.and_eq_true, decide_eq_true_eq]
        intro hcontra
        exact hmem (by rw [hcontra.1]; exact List.mem_cons_self c cs)
      rw [pyReplaceFuel, if_neg (fun hand => hne hand.2),
        ih cs hcs (fun hx => hmem (List.mem_cons_of_mem c hx))]

theorem mem_pyReplaceFuel {pat rep : List Char} {x : Char} :
    ∀ (fuel : Nat) (l : List Char), l.length ≤ fuel →
      x ∈ pyReplaceFuel fuel l pat rep → x ∈ l ∨ x ∈ rep := by
  intro fuel
  induction fuel with
  | zero =>
    intro l hl hx
    cases l with
    | nil => cases hx
    | cons c cs => simp at hl
  | succ fuel ih =>
    intro l hl hx
    cases l with
    | nil => cases hx
    | cons c cs =>
      have hcs : cs.length ≤ fuel := by
        simp only [List.length_cons] at hl
        omega
      rw [pyReplaceFuel] at hx
      by_cases hcond : pat ≠ [] ∧ leadsWith pat (c :: cs) = true
      · rw [if_pos hcond] at hx
        rcases List.mem_append.mp hx with hr | hrec
        · exact Or.inr hr
        · have hp : 0 < pat.length := List.length_pos.mpr hcond.1
          have hdrop : ((c :: cs).drop pat.length).length ≤ fuel := by
            simp only [List.length_drop, List.length_cons]
            omega
          rcases ih _ hdrop hrec with hm | hr
          · exact Or.inl (List.mem_of_mem_drop hm)
          · exact Or.inr hr
      · rw [if_neg hcond] at hx
        rcases List.mem_cons.mp hx with hxc | hrec
        · exact Or.inl (by rw [hxc]; exact List.mem_cons_self c cs)
        · rcases ih cs hcs hrec with hm | hr
          · exact Or.inl (List.mem_cons_of_mem c hm)
          · exact Or.inr hr

theorem pyReplaceFuel_single_single {a b : Char} :
    ∀ (fuel : Nat) (l : List Char), l.length ≤ fuel →
      pyReplaceFuel fuel l [a] [b] = l.map (fun c => if c = a then b else c) := by
  intro fuel
  induction fuel with
  | zero =>
    intro l hl
    cases l with
    | nil => rfl
    | cons c cs => simp at hl
  | succ fuel ih =>
    intro l hl
    cases l with
    | nil => rfl
    | cons c cs =>
      have hcs : cs.length ≤ fuel := by
        simp only [List.length_cons] at hl
        omega
      rw [pyReplaceFuel, List.map_cons]
      by_cases hca : c = a
      · rw [if_pos ⟨List.cons_ne_nil a [], by simp [leadsWith, hca]⟩,
          show (c :: cs).drop ([a] : List Char).length = cs from rfl, ih cs hcs, if_pos hca]
        rfl
      · have hnc : ¬ (([a] : List Char) ≠ [] ∧ leadsWith [a] (c :: cs) = true) := by
          intro hand
          have h2 := hand.2
          simp only [leadsWith, Bool.and_eq_true, decide_eq_true_eq] at h2
          exact hca h2.1.symm
        rw [if_neg hnc, ih cs hcs, if_neg hca]

theorem notMem_pyReplaceFuel_single {a : Char} {rep : List Char} (hrep : a ∉ rep) :
    ∀ (fuel : Nat) (l : List Char), l.length ≤ fuel →
      a ∉ pyReplaceFuel fuel l [a] rep := by
  intro fuel
  induction fuel with
  | zero =>
    intro l hl hx
    cases l with
    | nil => cases hx
    | cons c cs => simp at hl
  | succ fuel ih =>
    intro l hl
    cases l with
    | nil => intro hx; cases hx
    | cons c cs =>
      have hcs : cs.length ≤ fuel := by
        simp only [List.length_cons] at hl
        omega
      intro hx
      rw [pyReplaceFuel] at hx
      by_cases hca : c = a
      · rw [if_pos ⟨List.cons_ne_nil a [], by simp [leadsWith, hca]⟩] at hx
        rcases List.mem_append.mp hx with hr | hrec
        · exact hrep hr
        · exact ih _ (by simpa using hcs) hrec
      · have hnc : ¬ (([a] : List Char) ≠ [] ∧ leadsWith [a] (c :: cs) = true) := by
          intro hand
          have h2 := hand.2
          simp only [leadsWith, Bool.and_eq_true, decide_eq_true_eq] at h2
          exact hca h2.1.symm
        rw [if_neg hnc] at hx
        rcases List.mem_cons.mp hx with hxc | hrec
        · exact hca hxc.symm
        · exact ih cs hcs hrec

theorem pyReplace_head_notMem {l pat rep : List Char} {hd : Char} {tl : List Char}
    (hpat : pat = hd :: tl) (h : hd ∉ l) : pyReplace l pat rep = l :=
  pyReplaceFuel_head_notMem hpat l.length l (Nat.le_refl _) h

theorem mem_pyReplace {l pat rep : List Char} {x : Char} (hx : x ∈ pyReplace l pat rep) :
    x ∈ l ∨ x ∈ rep :=
  mem_pyReplaceFuel l.length l (Nat.le_refl _) hx

theorem notMem_pyReplace_of {x : Char} {l pat rep : List Char} (hl : x ∉ l) (hr : x ∉ rep) :
    x ∉ pyReplace l pat rep :=
  fun hx => (mem_pyReplace hx).elim hl hr

theorem pyReplace_single_single (a b : Char) (l : List Char) :
    pyReplace l [a] [b] = l.map (fun c => if c = a then b else c) :=
  pyReplaceFuel_single_single l.length l (Nat.le_refl _)

theorem notMem_pyReplace_single {a : Char} {rep l : List Char} (hrep : a ∉ rep) :
    a ∉ pyReplace l [a] rep :=
  notMem_pyReplaceFuel_single hrep l.length l (Nat.le_refl _)

/-- The lowercase ASCII letters: the image of `pyToLower` on its moved
points. -/
def lowerLetters : List Char := pyStr "abcdefghijklmnopqrstuvwxyz"

theorem pyToLower_mem_or_fixed (c : Char) :
    pyToLower c = c ∨ pyToLower c ∈ lowerLetters := by
  unfold pyToLower
  split
  all_goals first
    | (left; rfl)
    | (right; decide)

theorem pyToLower_fixed_of_lower : ∀ d ∈ lowerLetters, pyToLower d = d := by decide

theorem lower_nonspace : ∀ d ∈ lowerLetters, pyIsSpace d = false := by decide

theorem pyToLower_idem (c : Char) : pyToLower (pyToLower c) = pyToLower c := by
  rcases pyToLower_mem_or_fixed c with h | h
  · rw [h]
    exact h
  · exact pyToLower_fixed_of_lower _ h

theorem eq_of_pyToLower_eq {y x : Char} (h : pyToLower y = x) (hx : x ∉ lowerLetters) :
    y = x := by
  rcases pyToLower_mem_or_fixed y with h' | h'
  · rw [← h]
    exact h'.symm
  · rw [h] at h'
    exact absurd h' hx

theorem head_dropWhile {p : Char → Bool} :
    ∀ (l : List Char), ∀ x ∈ (l.dropWhile p).take 1, p x = false := by
  intro l
  induction l with
  | nil => intro x hx; cases hx
  | cons c cs ih =>
    intro x hx
    rw [List.dropWhile_cons] at hx
    by_cases hc : p c = true
    · rw [if_pos hc] at hx
      exact ih x hx
    · rw [if_neg hc] at hx
      have hxc : x = c := by simpa using hx
      rw [hxc, ← Bool.not_eq_true]
      exact hc

theorem take_one_append {xs ys : List Char} (h : xs ≠ []) :
    (xs ++ ys).take 1 = xs.take 1 := by
  cases xs with
  | nil => exact absurd rfl h
  | cons c cs => rfl

theorem mem_of_mem_dropWhile {p : Char → Bool} :
    ∀ {l : List Char} {x : Char}, x ∈ l.dropWhile p → x ∈ l := by
  intro l
  induction l with
  | nil => intro x hx; cases hx
  | cons c cs ih =>
    intro x hx
    rw [List.dropWhile_cons] at hx
    by_cases hc : p c = true
    · rw [if_pos hc] at hx
      exact List.mem_cons_of_mem c (ih hx)
    · rw [if_neg hc] at hx
      exact hx

theorem mem_pyStrip {l : List Char} {x : Char} (hx : x ∈ pyStrip l) : x ∈ l := by
  unfold pyStrip at hx
  rw [List.mem_reverse] at hx
  have h1 := mem_of_mem_dropWhile hx
  rw [List.mem_reverse] at h1
  exact mem_of_mem_dropWhile h1

theorem pyStrip_last_nonspace (l : List Char) :
    ∀ x ∈ (pyStrip l).reverse.take 1, pyIsSpace x = false := by
  intro x hx
  unfold pyStrip at hx
  rw [List.reverse_reverse] at hx
  exact head_dropWhile _ x hx

theorem pyStrip_head_nonspace (l : List Char) :
    ∀ x ∈ (pyStrip l).take 1, pyIsSpace x = false := by
  intro x hx
  unfold pyStrip at hx
  cases hBnil : (l.dropWhile pyIsSpace).reverse.dropWhile pyIsSpace with
  | nil => rw [hBnil] at hx; cases hx
  | cons b bs =>
    have hBrevne : ((l.dropWhile pyIsSpace).reverse.dropWhile pyIsSpace).reverse ≠ [] := by
      rw [hBnil]
      simp
    have hsplit := List.takeWhile_append_dropWhile pyIsSpace (l.dropWhile pyIsSpace).reverse
    have hArev : ((l.dropWhile pyIsSpace).reverse.dropWhile pyIsSpace).reverse ++
        ((l.dropWhile pyIsSpace).reverse.takeWhile pyIsSpace).reverse = l.dropWhile pyIsSpace := by
      have h2 := congrArg List.reverse hsplit
      rw [List.reverse_append, List.reverse_reverse] at h2
      exact h2
    have hxA : x ∈ (l.dropWhile pyIsSpace).take 1 := by
      rw [← hArev, take_one_append hBrevne]
      exact hx
    exact head_dropWhile l x hxA

theorem dropWhile_id_of_head {p : Char → Bool} {l : List Char}
    (h : ∀ x ∈ l.take 1, p x = false) : l.dropWhile p = l := by
  cases l with
  | nil => rfl
  | cons c cs =>
    have hc := h c (by simp)
    rw [List.dropWhile_cons, if_neg (by rw [hc]; simp)]

theorem pyStrip_eq_self {l : List Char}
    (h1 : ∀ x ∈ l.take 1, pyIsSpace x = false)
    (h2 : ∀ x ∈ l.reverse.take 1, pyIsSpace x = false) :
    pyStrip l = l := by
  unfold pyStrip
  rw [dropWhile_id_of_head h1, dropWhile_id_of_head h2, List.reverse_reverse]

theorem map_id_of_fixed {g : Char → Char} :
    ∀ {l : List Char}, (∀ x ∈ l, g x = x) → l.map g = l := by
  intro l
  induction l with
  | nil => intro _; rfl
  | cons c cs ih =>
    intro h
    rw [List.map_cons, h c (List.mem_cons_self c cs),
      ih (fun x hx => h x (List.mem_cons_of_mem c hx))]

theorem format_string_chars (raw : List Char) :
    ∀ x ∈ format_string raw,
      pyToLower x = x ∧ x ≠ '%' ∧ x ≠ '-' ∧ x ≠ '(' ∧ x ≠ ')' ∧ x ≠ ',' ∧ x ≠ ' ' := by
  intro x hx
  simp only [format_string] at hx
  rw [show pyStr " " = [' '] from rfl, show pyStr "_" = ['_'] from rfl,
    pyReplace_single_single, List.map_map] at hx
  set s1 := pyReplace raw (pyStr "N/A") [] with hs1
  set s2 := pyReplace s1 (pyStr "%") (pyStr "pct") with hs2
  set s3 := pyReplace s2 (pyStr "-") [] with hs3
  set s4 := pyReplace s3 (pyStr "(") [] with hs4
  set s5 := pyReplace s4 (pyStr ")") [] with hs5
  set s6 := pyReplace s5 (pyStr ",") [] with hs6
  set s7 := pyReplace s6 (pyStr "S&P") (pyStr "snp") with hs7
  obtain ⟨y, hy, hxy⟩ := List.mem_map.mp hx
  have hy7 : y ∈ s7 := mem_pyStrip hy
  have hpc2 : '%' ∉ s2 := by
    rw [hs2, show pyStr "%" = ['%'] from rfl]
    exact notMem_pyReplace_single (by decide)
  have hpc7 : '%' ∉ s7 := by
    rw [hs7]
    apply notMem_pyReplace_of _ (by decide)
    rw [hs6]
    apply notMem_pyReplace_of _ (by decide)
    rw [hs5]
    apply notMem_pyReplace_of _ (by decide)
    rw [hs4]
    apply notMem_pyReplace_of _ (by decide)
    rw [hs3]
    exact notMem_pyReplace_of hpc2 (by decide)
  have hmi3 : '-' ∉ s3 := by
    rw [hs3, show pyStr "-" = ['-'] from rfl]
    exact notMem_pyReplace_single (by decide)
  have hmi7 : '-' ∉ s7 := by
    rw [hs7]
    apply notMem_pyReplace_of _ (by decide)
    rw [hs6]
    apply notMem_pyReplace_of _ (by decide)
    rw [hs5]
    apply notMem_pyReplace_of _ (by decide)
    rw [hs4]
    exact notMem_pyReplace_of hmi3 (by decide)
  have hop4 : '(' ∉ s4 := by
    rw [hs4, show pyStr "(" = ['('] from rfl]
    exact notMem_pyReplace_single (by decide)
  have hop7 : '(' ∉ s7 := by
    rw [hs7]
    apply notMem_pyReplace_of _ (by decide)
    rw [hs6]
    apply notMem_pyReplace_of _ (by decide)
    rw [hs5]
    exact notMem_pyReplace_of hop4 (by decide)
  have hcp5 : ')' ∉ s5 := by
    rw [hs5, show pyStr ")" = [')'] from rfl]
    exact notMem_pyReplace_single (by decide)
  have hcp7 : ')' ∉ s7 := by
    rw [hs7]
    apply notMem_pyReplace_of _ (by decide)
    rw [hs6]
    exact notMem_pyReplace_of hcp5 (by decide)
  have hcm6 : ',' ∉ s6 := by
    rw [hs6, show pyStr "," = [','] from rfl]
    exact notMem_pyReplace_single (by decide)
  have hcm7 : ',' ∉ s7 := by
    rw [hs7]
    exact notMem_pyReplace_of hcm6 (by decide)
  simp only [Function.comp_apply] at hxy
  by_cases hz : pyToLower y = ' '
  · rw [if_pos hz] at hxy
    cases hxy
    exact ⟨by decide, by decide, by decide, by decide, by decide, by decide, by decide⟩
  · rw [if_neg hz] at hxy
    cases hxy
    refine ⟨pyToLower_idem y, ?_, ?_, ?_, ?_, ?_, hz⟩
    · intro he
      have hy' := eq_of_pyToLower_eq he (by decide)
      rw [hy'] at hy7
      exact hpc7 hy7
    · intro he
      have hy' := eq_of_pyToLower_eq he (by decide)
      rw [hy'] at hy7
      exact hmi7 hy7
    · intro he
      have hy' := eq_of_pyToLower_eq he (by decide)
      rw [hy'] at hy7
      exact hop7 hy7
    · intro he
      have hy' := eq_of_pyToLower_eq he (by decide)
      rw [hy'] at hy7
      exact hcp7 hy7
    · intro he
      have hy' := eq_of_pyToLower_eq he (by decide)
      rw [hy'] at hy7
      exact hcm7 hy7

theorem format_string_ends_nonspace (raw : List Char) :
    (∀ x ∈ (format_string raw).take 1, pyIsSpace x = false)
    ∧ (∀ x ∈ (format_string raw).reverse.take 1, pyIsSpace x = false) := by
  have hpres : ∀ y : Char, pyIsSpace y = false →
      pyIsSpace (if pyToLower y = ' ' then '_' else pyToLower y) = false := by
    intro y hy
    rcases pyToLower_mem_or_fixed y with h | h
    · rw [h]
      by_cases hy' : y = ' '
      · rw [hy'] at hy
        exact absurd hy (by decide)
      · rw [if_neg hy']
        exact hy
    · have hzs := lower_nonspace _ h
      have hzne : pyToLower y ≠ ' ' := by
        intro he
        rw [he] at h
        exact absurd h (by decide)
      rw [if_neg hzne]
      exact hzs
  have hform : format_string raw =
      (pyStrip (pyReplace (pyReplace (pyReplace (pyReplace (pyReplace (pyReplace
        (pyReplace raw (pyStr "N/A") []) (pyStr "%") (pyStr "pct")) (pyStr "-") [])
        (pyStr "(") []) (pyStr ")") []) (pyStr ",") []) (pyStr "S&P") (pyStr "snp"))).map
        ((fun c => if c = ' ' then '_' else c) ∘ pyToLower) := by
    simp only [format_string]
    rw [show pyStr " " = [' '] from rfl, show pyStr "_" = ['_'] from rfl,
      pyReplace_single_single, List.map_map]
  rw [hform]
  constructor
  · intro x hx
    rw [← List.map_take] at hx
    obtain ⟨y, hy, hxy⟩ := List.mem_map.mp hx
    rw [← hxy]
    simpa using hpres y (pyStrip_head_nonspace _ y hy)
  · intro x hx
    rw [← List.map_reverse, ← List.map_take] at hx
    obtain ⟨y, hy, hxy⟩ := List.mem_map.mp hx
    rw [← hxy]
    simpa using hpres y (pyStrip_last_nonspace _ y hy)

/-- C8: string canonicalization (the Text fallback path) is idempotent:
`canonicalize(canonicalize(s)) = canonicalize(s)` for every input string. -/
theorem c8_canonicalize_idempotent (s : List Char) :
    format_string (format_string s) = format_string s := by
  set w := format_string s with hw
  have hchars := format_string_chars s
  have hends := format_string_ends_nonspace s
  rw [← hw] at hchars hends
  have hN : 'N' ∉ w := by
    intro hx
    exact absurd (hchars 'N' hx).1 (by decide)
  have hS : 'S' ∉ w := by
    intro hx
    exact absurd (hchars 'S' hx).1 (by decide)
  have hPct : '%' ∉ w := fun hx => (hchars '%' hx).2.1 rfl
  have hMin : '-' ∉ w := fun hx => (hchars '-' hx).2.2.1 rfl
  have hOp : '(' ∉ w := fun hx => (hchars '(' hx).2.2.2.1 rfl
  have hCp : ')' ∉ w := fun hx => (hchars ')' hx).2.2.2.2.1 rfl
  have hCm : ',' ∉ w := fun hx => (hchars ',' hx).2.2.2.2.2.1 rfl
  have hSp : ' ' ∉ w := fun hx => (hchars ' ' hx).2.2.2.2.2.2 rfl
  have e1 : pyReplace w (pyStr "N/A") [] = w :=
    pyReplace_head_notMem (show pyStr "N/A" = 'N' :: pyStr "/A" from rfl) hN
  have e2 : pyReplace w (pyStr "%") (pyStr "pct") = w :=
    pyReplace_head_notMem (show pyStr "%" = '%' :: [] from rfl) hPct
  have e3 : pyReplace w (pyStr "-") [] = w :=
    pyReplace_head_notMem (show pyStr "-" = '-' :: [] from rfl) hMin
  have e4 : pyReplace w (pyStr "(") [] = w :=
    pyReplace_head_notMem (show pyStr "(" = '(' :: [] from rfl) hOp
  have e5 : pyReplace w (pyStr ")") [] = w :=
    pyReplace_head_notMem (show pyStr ")" = ')' :: [] from rfl) hCp
  have e6 : pyReplace w (pyStr ",") [] = w :=
    pyReplace_head_notMem (show pyStr "," = ',' :: [] from rfl) hCm
  have e7 : pyReplace w (pyStr "S&P") (pyStr "snp") = w :=
    pyReplace_head_notMem (show pyStr "S&P" = 'S' :: pyStr "&P" from rfl) hS
  have estrip : pyStrip w = w := pyStrip_eq_self hends.1 hends.2
  have emap : w.map pyToLower = w := map_id_of_fixed (fun x hx => (hchars x hx).1)
  have e8 : pyReplace w (pyStr " ") (pyStr "_") = w :=
    pyReplace_head_notMem (show pyStr " " = ' ' :: [] from rfl) hSp
  simp only [format_string, e1, e2, e3, e4, e5, e6, e7, estrip, emap, e8]

end YFS
